import Mathlib

set_option maxRecDepth 40000

/-!
Verification development for the flight price monitor (`flight_monitor.py`).

Modelling conventions, used throughout:
* Python strings are `List Char` (one entry per Unicode code point, which is
  exactly how Python indexes and measures strings).
* Python ints are `Int`; Python decimal number literals parsed by `float` are
  modelled as exact rationals (binary floating point rounding is abstracted
  to exact decimal arithmetic).
* A Python function that can raise is modelled with `Option`/`Except`; a
  caught exception corresponds to the `none`/`.error` branch.
* Functions keep the names of the Python functions they embed.
-/

-- ===========================
-- Definitions (embedding of the source)
-- ===========================

/-- Python strings are modelled as lists of Unicode characters. -/
abbrev PyStr := List Char

/-- A Lean string literal viewed in the Python string model. -/
def pstr (s : String) : PyStr := s.data

/-- ASCII decimal digit test. -/
def isPyDigit (c : Char) : Bool := '0' ≤ c && c ≤ '9'

/-- Whitespace as stripped by Python number conversions. -/
def isPySpace (c : Char) : Bool := c = ' ' || c = '\t' || c = '\n' || c = '\r'

/-- The decimal digit character for `n % 10`. -/
def digitChar (n : Nat) : Char := Char.ofNat (48 + n % 10)

/-- Numeric value of a string of decimal digits. -/
def digitsVal (ds : List Char) : Nat := ds.foldl (fun a c => 10 * a + (c.toNat - 48)) 0

/-- Fuel-indexed decimal rendering (most significant digit first). -/
def natStrAux : Nat → Nat → List Char
  | 0, _ => []
  | fuel + 1, n => if n < 10 then [digitChar n] else natStrAux fuel (n / 10) ++ [digitChar (n % 10)]

/-- Decimal rendering of a natural number, as Python `str` produces it. -/
def natStr (n : Nat) : PyStr := natStrAux (n + 1) n

/-- Python `str`/f-string rendering of an int. -/
def intStr (n : Int) : PyStr := if n < 0 then '-' :: natStr n.natAbs else natStr n.natAbs

/-- Insert a comma after every three characters of a reversed digit string. -/
def commaRev : List Char → List Char
  | a :: b :: c :: d :: rest => a :: b :: c :: ',' :: commaRev (d :: rest)
  | l => l

/-- Python format spec `{:,}` on an int: thousands separators every three digits. -/
def intStrComma (n : Int) : PyStr :=
  (if n < 0 then ['-'] else []) ++ (commaRev (natStr n.natAbs).reverse).reverse

/-- Python substring test `pat in s` (contiguous occurrence). -/
def subStr (pat : PyStr) : PyStr → Bool
  | [] => pat.isEmpty
  | c :: rest => pat.isPrefixOf (c :: rest) || subStr pat rest

/-- Python `s.split(sep)` for a one-character separator: keeps empty fields. -/
def pySplit (sep : Char) : PyStr → List PyStr
  | [] => [[]]
  | c :: rest =>
    if c = sep then [] :: pySplit sep rest
    else
      match pySplit sep rest with
      | [] => [[c]]
      | l :: ls => (c :: l) :: ls

/-- Fuel-indexed worker for `pyReplace`; the fuel is an upper bound on the
number of characters still to be consumed, so `s.length` fuel is enough. -/
def pyReplaceFuel (pat rep : PyStr) : Nat → PyStr → PyStr
  | 0, s => s
  | fuel + 1, s =>
    match s with
    | [] => []
    | c :: rest =>
      if pat.isPrefixOf (c :: rest) then rep ++ pyReplaceFuel pat rep fuel ((c :: rest).drop pat.length)
      else c :: pyReplaceFuel pat rep fuel rest

/-- Python `s.replace(pat, rep)`: all non-overlapping occurrences, left to
right.  Restricted to non-empty `pat`, which is all the source uses. -/
def pyReplace (s pat rep : PyStr) : PyStr :=
  if pat.isEmpty then s else pyReplaceFuel pat rep s.length s

/-- Strip leading and trailing whitespace, as Python number conversions do. -/
def pyStrip (s : PyStr) : PyStr := ((s.dropWhile isPySpace).reverse.dropWhile isPySpace).reverse

/-- Signed decimal integer with no surrounding whitespace: an optional sign
followed by one or more decimal digits, `none` on anything else. -/
def signedDigitsVal (s : PyStr) : Option Int :=
  match s with
  | '-' :: ds => if !ds.isEmpty && ds.all isPyDigit then some (-(digitsVal ds : Int)) else none
  | '+' :: ds => if !ds.isEmpty && ds.all isPyDigit then some (digitsVal ds : Int) else none
  | ds => if !ds.isEmpty && ds.all isPyDigit then some (digitsVal ds : Int) else none

/-- Python `int(str)`: optional surrounding whitespace, optional sign, decimal
digits.  (Underscore grouping and non-ASCII digits are not modelled.) -/
def pyInt (s : PyStr) : Option Int := signedDigitsVal (pyStrip s)

/-- Optional exponent suffix of a Python float literal. -/
def pyFloatExp (s : PyStr) : Option Int :=
  match s with
  | [] => some 0
  | 'e' :: r => signedDigitsVal r
  | 'E' :: r => signedDigitsVal r
  | _ => none

/-- Python `float(str)` on decimal literals, modelled exactly: returns a pair
`(m, k)` whose value is `m / 10 ^ k`.  `inf`/`nan`, underscore grouping and
binary rounding are not modelled; `none` models `ValueError`. -/
def pyFloatParse (s : PyStr) : Option (Int × Nat) :=
  let t := pyStrip s
  let sgn : Int := match t with | '-' :: _ => -1 | _ => 1
  let t1 : PyStr := match t with | '-' :: r => r | '+' :: r => r | r => r
  let ip := t1.takeWhile isPyDigit
  let t2 := t1.dropWhile isPyDigit
  let frac : PyStr := match t2 with | '.' :: r => r.takeWhile isPyDigit | _ => []
  let t3 : PyStr := match t2 with | '.' :: r => r.dropWhile isPyDigit | r => r
  if ip.isEmpty && frac.isEmpty then none
  else
    match pyFloatExp t3 with
    | none => none
    | some e =>
      let m : Int := sgn * ((digitsVal ip : Int) * 10 ^ frac.length + (digitsVal frac : Int))
      if 0 ≤ e then some (m * 10 ^ e.toNat, frac.length)
      else some (m, frac.length + (-e).toNat)

/-- The exact rational value of a parsed Python float. -/
def ratOfParsed (p : Int × Nat) : ℚ := mkRat p.1 (10 ^ p.2)

/-- Python `int(x)` on a real value: truncation toward zero. -/
def pyTrunc (q : ℚ) : Int := q.num.tdiv q.den

/-- The static airline table of `get_airline_name`. -/
def airlines : List (PyStr × PyStr) :=
  [(pstr "6E", pstr "IndiGo"), (pstr "AI", pstr "Air India"), (pstr "SG", pstr "SpiceJet"),
   (pstr "UK", pstr "Vistara"), (pstr "QP", pstr "Akasa Air"), (pstr "IX", pstr "Air India Express"),
   (pstr "9I", pstr "Alliance Air"), (pstr "I5", pstr "AirAsia India"), (pstr "G8", pstr "Go First")]

/-- Python `dict.get(k, dflt)` over an insertion-ordered association list. -/
def dictGet (d : List (PyStr × PyStr)) (k dflt : PyStr) : PyStr :=
  match d with
  | [] => dflt
  | (key, v) :: rest => if key = k then v else dictGet rest k dflt

/-- `get_airline_name`: convert an airline code to a display name, falling
back to the code itself. -/
def get_airline_name (carrier_code : PyStr) : PyStr :=
  dictGet airlines carrier_code carrier_code

/-- Hours step of `parse_duration`: if `'H'` occurs, split on it, convert the
part before it with `int` and continue with the part after it; a failed
conversion (or an out-of-range index) is an exception, modelled as `none`. -/
def durationHours (s1 : PyStr) : Option (Int × PyStr) :=
  if s1.contains 'H' then
    match pySplit 'H' s1 with
    | p0 :: p1 :: _ => (pyInt p0).map fun h => (h, p1)
    | _ => none
  else some (0, s1)

/-- Minutes step of `parse_duration`: if `'M'` occurs, drop every `'M'` and
convert the rest with `int`. -/
def durationMinutes (s2 : PyStr) : Option Int :=
  if s2.contains 'M' then pyInt (pyReplace s2 (pstr "M") []) else some 0

/-- `parse_duration`: parse an ISO-8601-style duration token into the display
form `"{h}h {m}m"`; any exception along the way is caught and yields the
literal `"N/A"`. -/
def parse_duration (duration_str : PyStr) : PyStr :=
  match durationHours (pyReplace duration_str (pstr "PT") []) with
  | none => pstr "N/A"
  | some (hours, s2) =>
    match durationMinutes s2 with
    | none => pstr "N/A"
    | some minutes => intStr hours ++ pstr "h " ++ intStr minutes ++ pstr "m"

/-- One flight segment of a raw offer.  Each field models the corresponding
dict entry, `none` modelling an absent key (the source reads every field with
`.get` and a default).  The `arrival` lookup of the source is computed into an
unused variable and can never raise once `segments` is non-empty, so it is
not represented. -/
structure Segment where
  carrierCode : Option PyStr
  departureAt : Option PyStr
  cabin : Option PyStr
deriving DecidableEq

/-- One itinerary of a raw offer: `.get('segments', [])` and
`.get('duration', 'PT0H0M')`. -/
structure Itinerary where
  segments : List Segment
  duration : Option PyStr
deriving DecidableEq

/-- A raw Amadeus offer record.  `priceTotal` models
`offer.get('price', {}).get('total', '0')`: `none` when either key is
absent (so the default `'0'` applies). -/
structure RawOffer where
  priceTotal : Option PyStr
  itineraries : List Itinerary
deriving DecidableEq

/-- A normalized deal, mirroring the dict built at lines 261-272 of the
source. -/
structure Deal where
  date : PyStr
  price : Int
  total_price : Int
  airline : PyStr
  carrier_code : PyStr
  duration : PyStr
  stops : Int
  departure_time : PyStr
  cabin_class : PyStr
  source : PyStr
deriving DecidableEq

/-- The configuration fields of `Config` that the modelled functions read.
`PASSENGERS` and `MAX_PRICE` come from `int(os.getenv(...))` and can hold any
integer, including 0. -/
structure Config where
  FROM_CITY : PyStr
  FROM_CODE : PyStr
  TO_CITY : PyStr
  TO_CODE : PyStr
  DATE_RANGE_START : PyStr
  DATE_RANGE_END : PyStr
  PASSENGERS : Int
  MAX_PRICE : Int
deriving DecidableEq

deriving instance DecidableEq for Except

/-- The exact value of `total_price / passengers` for a parsed float
`total = (m, k)` (value `m / 10 ^ k`) and a non-zero passenger count. -/
def pricePerPerson (total : Int × Nat) (passengers : Int) : ℚ :=
  mkRat (if passengers < 0 then -total.1 else total.1) (10 ^ total.2 * passengers.natAbs)

/-- One iteration of the offer loop of `parse_amadeus_response` (lines
217-275).  `.error ()` models an exception raised inside the loop body
(`float` conversion failure or division by zero), `.ok none` an offer that is
filtered out or skipped by `continue`, and `.ok (some d)` an appended deal. -/
def processOffer (cfg : Config) (date : PyStr) (offer : RawOffer) : Except Unit (Option Deal) :=
  match pyFloatParse (offer.priceTotal.getD (pstr "0")) with
  | none => .error ()
  | some total =>
    if cfg.PASSENGERS = 0 then .error ()
    else
      if pricePerPerson total cfg.PASSENGERS ≤ (cfg.MAX_PRICE : ℚ) then
        match offer.itineraries with
        | [] => .ok none
        | first_itinerary :: _ =>
          match first_itinerary.segments with
          | [] => .ok none
          | first_segment :: _ =>
            let carrier_code := first_segment.carrierCode.getD (pstr "XX")
            let departure_time := (first_segment.departureAt.getD []).take 16
            let departure_hour :=
              if departure_time.contains 'T' then (pySplit 'T' departure_time).getD 1 []
              else pstr "N/A"
            .ok (some {
              date := date
              price := pyTrunc (pricePerPerson total cfg.PASSENGERS)
              total_price := pyTrunc (ratOfParsed total)
              airline := get_airline_name carrier_code
              carrier_code := carrier_code
              duration := parse_duration (first_itinerary.duration.getD (pstr "PT0H0M"))
              stops := (first_itinerary.segments.length : Int) - 1
              departure_time := departure_hour
              cabin_class := first_segment.cabin.getD (pstr "ECONOMY")
              source := pstr "Amadeus" })
      else .ok none

/-- The `for offer in data` loop of `parse_amadeus_response`, inside the
single batch-level `try`: the first exception aborts the whole loop, and the
deals accumulated so far are returned. -/
def parseLoop (cfg : Config) (date : PyStr) : List RawOffer → List Deal → List Deal
  | [], acc => acc
  | offer :: rest, acc =>
    match processOffer cfg date offer with
    | .error _ => acc
    | .ok none => parseLoop cfg date rest acc
    | .ok (some d) => parseLoop cfg date rest (acc ++ [d])

/-- `parse_amadeus_response`: normalize one date batch of raw offers into
deals, filtering by the per-person budget. -/
def parse_amadeus_response (cfg : Config) (data : List RawOffer) (date : PyStr) : List Deal :=
  parseLoop cfg date data []

-- concrete inputs shared by several witnesses and counterexamples below
/-- A well-formed offer that qualifies under `cfgA`. -/
def offerGood : RawOffer :=
  { priceTotal := some (pstr "100")
    itineraries := [{ segments := [{ carrierCode := some (pstr "AI")
                                     departureAt := some (pstr "2026-02-01T06:30")
                                     cabin := some (pstr "ECONOMY") }]
                      duration := some (pstr "PT1H30M") }] }

/-- An offer whose price string cannot be converted by `float`, so field
extraction raises. -/
def offerBad : RawOffer :=
  { priceTotal := some (pstr "oops"), itineraries := [] }

/-- A concrete configuration with one passenger and budget 1000. -/
def cfgA : Config :=
  { FROM_CITY := pstr "Hyderabad", FROM_CODE := pstr "HYD"
    TO_CITY := pstr "Varanasi", TO_CODE := pstr "VNS"
    DATE_RANGE_START := pstr "2026-02-01", DATE_RANGE_END := pstr "2026-02-15"
    PASSENGERS := 1, MAX_PRICE := 1000 }

/-- The deal `offerGood` normalizes to under `cfgA`. -/
def dealGood : Deal :=
  { date := pstr "2026-02-01", price := 100, total_price := 100
    airline := pstr "Air India", carrier_code := pstr "AI"
    duration := pstr "1h 30m", stops := 0
    departure_time := pstr "06:30", cabin_class := pstr "ECONOMY"
    source := pstr "Amadeus" }

/-- `send_telegram_message`, abstracted over the transport outcome of the
single HTTP post: `none` models a raised exception, `some code` an HTTP
response with that status code.  Returns `True` exactly on status 200. -/
def send_telegram_message (outcome : Option Nat) : Bool :=
  match outcome with
  | some code => code == 200
  | none => false

/-- The chunking loop of `send_long_message` (lines 129-140): iterate over
the lines, flushing the current chunk when adding the next line would exceed
the 4000-character budget, and appending a newline to every line. -/
def chunkLoop : List PyStr → List PyStr → PyStr → List PyStr
  | [], parts, current => if current.isEmpty then parts else parts ++ [current]
  | line :: rest, parts, current =>
    if 4000 < current.length + line.length + 1 then
      chunkLoop rest (parts ++ [current]) (line ++ [ '\n' ])
    else
      chunkLoop rest parts (current ++ line ++ [ '\n' ])

/-- The chunks `send_long_message` produces for a message. -/
def splitChunks (message : PyStr) : List PyStr :=
  chunkLoop (pySplit '\n' message) [] []

/-- `send_long_message`, abstracted over the delivery collaborator `send`
(one call per chunk, modelling `send_telegram_message`).  For a short message
the single delivery result is returned; for a long message every chunk is
sent, the per-chunk results are discarded (as in the source), and `True` is
returned unconditionally. -/
def send_long_message (send : PyStr → Bool) (message : PyStr) : Bool :=
  if message.length ≤ 4000 then send message
  else
    let _chunkResults := (splitChunks message).map send
    true

/-- The content of a chunk built from a group of lines: each line followed by
the newline the chunker appends. -/
def renderGroup (g : List PyStr) : PyStr := (g.map (fun l => l ++ [ '\n' ])).flatten

/-- Group-level mirror of `chunkLoop`, used to state that chunks are built
from whole lines only. -/
def chunkGroups : List PyStr → List (List PyStr) → List PyStr → List (List PyStr)
  | [], gs, g => if g.isEmpty then gs else gs ++ [g]
  | line :: rest, gs, g =>
    if 4000 < (renderGroup g).length + line.length + 1 then
      chunkGroups rest (gs ++ [g]) [line]
    else
      chunkGroups rest gs (g ++ [line])

/-- A message that is one single line of 4001 characters. -/
def msgOneLongLine : PyStr := List.replicate 4001 'a'

/-- A 4200-character message made of 1400 short lines. -/
def msgManyLines : PyStr := (List.replicate 1400 (pstr "ab\n")).flatten

/-- The sort key of `deals.sort(key=lambda x: x['price'])`. -/
def dealLE (a b : Deal) : Prop := a.price ≤ b.price

instance : DecidableRel dealLE := fun a b => inferInstanceAs (Decidable (a.price ≤ b.price))

instance : IsTotal Deal dealLE := ⟨fun a b => Int.le_total a.price b.price⟩

instance : IsTrans Deal dealLE := ⟨fun _ _ _ h1 h2 => le_trans h1 h2⟩

/-- `deals.sort(key=lambda x: x['price'])`: Python sort is stable, modelled
as a stable insertion sort on the price key. -/
def sortByPrice (deals : List Deal) : List Deal := List.insertionSort dealLE deals

/-- Gregorian leap year, as `datetime` implements it. -/
def isLeap (y : Nat) : Bool := (y % 4 == 0 && y % 100 != 0) || (y % 400 == 0)

/-- Days in a month, with calendar validation as `datetime` performs it. -/
def monthDays (y m : Nat) : Nat :=
  match m with
  | 1 => 31 | 2 => if isLeap y then 29 else 28 | 3 => 31 | 4 => 30 | 5 => 31 | 6 => 30
  | 7 => 31 | 8 => 31 | 9 => 30 | 10 => 31 | 11 => 30 | 12 => 31
  | _ => 0

/-- `datetime.strptime(s, '%Y-%m-%d')`, restricted to the canonical
zero-padded form that the program itself produces for its date strings;
`none` models the `ValueError` on anything else, including invalid calendar
dates. -/
def parseDate (s : PyStr) : Option (Nat × Nat × Nat) :=
  match s with
  | [y1, y2, y3, y4, '-', m1, m2, '-', d1, d2] =>
    if ([y1, y2, y3, y4].all isPyDigit && [m1, m2].all isPyDigit && [d1, d2].all isPyDigit) then
      let y := digitsVal [y1, y2, y3, y4]
      let m := digitsVal [m1, m2]
      let dd := digitsVal [d1, d2]
      if 1 ≤ y ∧ 1 ≤ m ∧ m ≤ 12 ∧ 1 ≤ dd ∧ dd ≤ monthDays y m then some (y, m, dd) else none
    else none
  | _ => none

/-- The month-offset table of the Sakamoto day-of-week formula. -/
def sakamotoT (m : Nat) : Nat := ([0, 3, 2, 5, 0, 3, 5, 1, 4, 6, 2, 4].getD (m - 1) 0 : Nat)

/-- Day of week of a Gregorian date, 0 = Sunday (Sakamoto's method),
matching what `strftime('%a')` renders. -/
def dayOfWeekSun (y m d : Nat) : Nat :=
  let yy := if m < 3 then y - 1 else y
  (yy + yy / 4 - yy / 100 + yy / 400 + sakamotoT m + d) % 7

/-- `strftime('%a')` weekday abbreviations, indexed with 0 = Sunday. -/
def weekdayName (w : Nat) : PyStr :=
  ([pstr "Sun", pstr "Mon", pstr "Tue", pstr "Wed", pstr "Thu", pstr "Fri", pstr "Sat"]).getD w []

/-- `strftime('%b')` month abbreviations. -/
def monthAbbrev (m : Nat) : PyStr :=
  ([pstr "Jan", pstr "Feb", pstr "Mar", pstr "Apr", pstr "May", pstr "Jun", pstr "Jul",
    pstr "Aug", pstr "Sep", pstr "Oct", pstr "Nov", pstr "Dec"]).getD (m - 1) []

/-- `strftime('%d')`: zero-padded day of month. -/
def pad2 (n : Nat) : PyStr := if n < 10 then '0' :: natStr n else natStr n

/-- `strftime('%b %d, %a')` for a parsed date. -/
def formatDateAbbrev (y m d : Nat) : PyStr :=
  monthAbbrev m ++ [ ' ' ] ++ pad2 d ++ pstr ", " ++ weekdayName (dayOfWeekSun y m d)

/-- One highlighted deal entry of the report (loop body at lines 380-394),
rank `i`; `none` models the `strptime` exception on an unparsable date. -/
def dealBlock (cfg : Config) (i : Nat) (d : Deal) : Option PyStr :=
  (parseDate d.date).map fun ymd =>
    pstr "*" ++ natStr i ++ pstr ". ₹" ++ intStr d.price ++ pstr "/person* ("
      ++ formatDateAbbrev ymd.1 ymd.2.1 ymd.2.2 ++ pstr ")\n"
    ++ pstr "   💰 Total: ₹" ++ intStrComma d.total_price ++ pstr " for "
      ++ intStr cfg.PASSENGERS ++ pstr " pax\n"
    ++ pstr "   ✈️ " ++ d.airline ++ pstr " (" ++ d.carrier_code ++ pstr ")"
    ++ (if d.stops = 0 then pstr " • Non-stop\n"
        else pstr " • " ++ intStr d.stops ++ pstr " stop(s)\n")
    ++ pstr "   🕐 Departs " ++ d.departure_time ++ pstr " • " ++ d.duration ++ pstr "\n"
    ++ pstr "   💺 " ++ d.cabin_class ++ pstr "\n\n"

/-- Render the highlighted deals (`enumerate(deals[:15], 1)`), threading the
rank and propagating a date-parse exception. -/
def renderTop (cfg : Config) : Nat → List Deal → Option PyStr
  | _, [] => some []
  | i, d :: rest =>
    match dealBlock cfg i d, renderTop cfg (i + 1) rest with
    | some b, some r => some (b ++ r)
    | _, _ => none

/-- Build `airline_counts` as an insertion-ordered association list (Python
dict semantics: update in place, append new keys). -/
def bumpCount : List (PyStr × Nat) → PyStr → List (PyStr × Nat)
  | [], a => [(a, 1)]
  | (k, v) :: rest, a => if k = a then (k, v + 1) :: rest else (k, v) :: bumpCount rest a

/-- The `airline_counts` dict after the counting loop (lines 412-415). -/
def airlineCounts (deals : List Deal) : List (PyStr × Nat) :=
  deals.foldl (fun m d => bumpCount m d.airline) []

/-- Python `max(items, key=lambda x: x[1])`: the first maximum in iteration
order (a later item replaces the current best only when strictly greater). -/
def maxBySnd : List (PyStr × Nat) → Option (PyStr × Nat)
  | [] => none
  | x :: rest => some (rest.foldl (fun best y => if best.2 < y.2 then y else best) x)

/-- The "no deals" message (lines 352-363). -/
def noDealsMsg (cfg : Config) : PyStr :=
  pstr "❌ *No Deals Found*\n\n"
  ++ pstr "🛫 " ++ cfg.FROM_CITY ++ pstr " → " ++ cfg.TO_CITY ++ pstr "\n"
  ++ pstr "📅 " ++ cfg.DATE_RANGE_START ++ pstr " to " ++ cfg.DATE_RANGE_END ++ pstr "\n"
  ++ pstr "👥 " ++ intStr cfg.PASSENGERS ++ pstr " passengers\n"
  ++ pstr "💰 Target: ≤ ₹" ++ intStr cfg.MAX_PRICE ++ pstr "/person\n\n"
  ++ pstr "💡 *Suggestions:*\n"
  ++ pstr "• Increase your budget in .env file\n"
  ++ pstr "• Try different dates\n"
  ++ pstr "• Check again later (prices change!)\n\n"
  ++ pstr "_Using Amadeus API - Real prices from 400+ airlines_"

/-- The report header up to and including the "TOP 15" title (lines
369-378), for a deal count `n`. -/
def dealsHeader (cfg : Config) (n : Nat) : PyStr :=
  pstr "✈️ *FLIGHT DEALS FOUND!*\n"
  ++ pstr "━━━━━━━━━━━━━━━━━━━━\n\n"
  ++ pstr "🛫 *" ++ cfg.FROM_CITY ++ pstr " (" ++ cfg.FROM_CODE ++ pstr ") → "
    ++ cfg.TO_CITY ++ pstr " (" ++ cfg.TO_CODE ++ pstr ")*\n"
  ++ pstr "📅 " ++ cfg.DATE_RANGE_START ++ pstr " to " ++ cfg.DATE_RANGE_END ++ pstr "\n"
  ++ pstr "👥 " ++ intStr cfg.PASSENGERS ++ pstr " passengers\n"
  ++ pstr "🎯 *" ++ natStr n ++ pstr " deals* under ₹" ++ intStr cfg.MAX_PRICE ++ pstr "\n\n"
  ++ pstr "━━━━━━━━━━━━━━━━━━━━\n\n"
  ++ pstr "*🏆 TOP 15 BEST DEALS:*\n\n"

/-- The note about deals beyond the top 15 (lines 396-397). -/
def moreNote (n : Nat) : PyStr :=
  if 15 < n then pstr "\n_...and " ++ natStr (n - 15) ++ pstr " more deals available!_\n" else []

/-- The statistics block and footer (lines 399-428), over the sorted deal
list, with the preformatted current-time string `now`.  The average models
`int(sum/len)` as exact truncating division. -/
def statsBlock (now : PyStr) (sorted : List Deal) (best : Deal) : PyStr :=
  pstr "\n━━━━━━━━━━━━━━━━━━━━\n"
  ++ pstr "*📊 STATISTICS:*\n\n"
  ++ pstr "🏆 Cheapest: ₹" ++ intStr best.price ++ pstr " (" ++ best.airline ++ pstr ")\n"
  ++ pstr "📊 Average: ₹"
    ++ intStr (Int.tdiv ((sorted.map fun d => d.price).sum) (sorted.length : Int)) ++ pstr "\n"
  ++ (match maxBySnd (airlineCounts sorted) with
      | some b => pstr "✈️ Most deals: " ++ b.1 ++ pstr " (" ++ natStr b.2 ++ pstr " flights)\n"
      | none => [])
  ++ (if 0 < sorted.countP (fun d => d.stops == 0) then
        pstr "🚀 Non-stop flights: " ++ natStr (sorted.countP (fun d => d.stops == 0)) ++ pstr "\n"
      else [])
  ++ pstr "\n🕐 Checked: " ++ now ++ pstr "\n"
  ++ pstr "🌐 Source: Amadeus (400+ airlines)\n"
  ++ pstr "💡 Run again anytime to refresh prices"

/-- `format_results_message`, with the wall clock passed in as the
preformatted `now` string.  `none` models the `strptime` exception on a deal
date that does not parse (only the first fifteen sorted deals are rendered,
so only their dates can raise).  The in-place `deals.sort` is modelled
separately by `format_results_message_post`. -/
def format_results_message (cfg : Config) (now : PyStr) (deals : List Deal) : Option PyStr :=
  match deals with
  | [] => some (noDealsMsg cfg)
  | _ :: _ =>
    match sortByPrice deals, renderTop cfg 1 ((sortByPrice deals).take 15) with
    | best :: _, some top =>
      some (dealsHeader cfg (sortByPrice deals).length ++ top
        ++ moreNote (sortByPrice deals).length ++ statsBlock now (sortByPrice deals) best)
    | _, _ => none

/-- The state of the caller-supplied deal list after `format_results_message`
returns: the source sorts the list in place in the non-empty branch (line
366), so the caller's collection is left in ascending-price order. -/
def format_results_message_post (deals : List Deal) : List Deal :=
  match deals with
  | [] => []
  | _ :: _ => sortByPrice deals

/-- A cheaper concrete deal used to exhibit reordering. -/
def dealCheap : Deal := { dealGood with price := 50, total_price := 50 }

/-- Twenty identical qualifying deals. -/
def dealsTwenty : List Deal := List.replicate 20 dealGood

/-- The rendered report for `dealsTwenty` under `cfgA` (empty clock string). -/
def msgTwenty : PyStr := (format_results_message cfgA [] dealsTwenty).getD []

/-- A deal with one stop, so the zero-stop count is 0. -/
def dealOneStop : Deal := { dealGood with stops := 1 }

/-- The rendered report for the single one-stop deal. -/
def msgOneStop : PyStr := (format_results_message cfgA [] [dealOneStop]).getD []

/-- A deal on a different airline with a different price. -/
def dealIndigo : Deal :=
  { dealGood with airline := pstr "IndiGo", carrier_code := pstr "6E"
                  price := 200, total_price := 200, stops := 1 }

/-- Three deals: two on Air India (non-stop), one on IndiGo. -/
def dealsThree : List Deal := [dealGood, dealIndigo, dealGood]

/-- The rendered report for `dealsThree`. -/
def msgThree : PyStr := (format_results_message cfgA [] dealsThree).getD []

-- ===========================
-- Theorems
-- ===========================

theorem digitsVal_append_singleton (ds : List Char) (c : Char) :
    digitsVal (ds ++ [c]) = 10 * digitsVal ds + (c.toNat - 48) := by
  simp [digitsVal, List.foldl_append]

theorem natStrAux_mem {fuel n : Nat} {c : Char} (h : c ∈ natStrAux fuel n) :
    ∃ k, k < 10 ∧ c = digitChar k := by
  induction fuel generalizing n with
  | zero => simp [natStrAux] at h
  | succ fuel ih =>
    simp only [natStrAux] at h
    split at h
    · simp only [List.mem_singleton] at h
      exact ⟨n % 10, Nat.mod_lt _ (by norm_num),
        by simp [h, digitChar, Nat.mod_mod_of_dvd n (dvd_refl 10)]⟩
    · rcases List.mem_append.mp h with h1 | h2
      · exact ih h1
      · simp only [List.mem_singleton] at h2
        exact ⟨n % 10, Nat.mod_lt _ (by norm_num),
          by simp [h2, digitChar, Nat.mod_mod_of_dvd n (dvd_refl 10)]⟩

theorem natStr_all_digits (n : Nat) : ∀ c ∈ natStr n, isPyDigit c = true := by
  intro c hc
  obtain ⟨k, hk, rfl⟩ := natStrAux_mem hc
  have hall : ∀ k, k < 10 → isPyDigit (digitChar k) = true := by decide
  exact hall k hk

theorem natStr_ne_nil (n : Nat) : natStr n ≠ [] := by
  unfold natStr natStrAux
  split <;> simp

theorem digitsVal_natStrAux : ∀ fuel n, n < fuel → digitsVal (natStrAux fuel n) = n := by
  intro fuel
  induction fuel with
  | zero => intro n h; omega
  | succ fuel ih =>
    intro n h
    simp only [natStrAux]
    split
    · rename_i h10
      have hd : ∀ k, k < 10 → digitsVal [digitChar k] = k := by decide
      exact hd n h10
    · rename_i h10
      have hpos : 0 < n := by omega
      have hdiv : n / 10 < fuel := by
        have := Nat.div_lt_self hpos (by norm_num : 1 < 10)
        omega
      rw [digitsVal_append_singleton, ih (n / 10) hdiv]
      have hm : (digitChar (n % 10)).toNat - 48 = n % 10 := by
        have hlt : n % 10 < 10 := Nat.mod_lt _ (by norm_num)
        have hd : ∀ k, k < 10 → (digitChar k).toNat - 48 = k := by decide
        exact hd _ hlt
      rw [hm]
      omega

theorem digitsVal_natStr (n : Nat) : digitsVal (natStr n) = n :=
  digitsVal_natStrAux (n + 1) n (Nat.lt_succ_self n)

theorem isPyDigit_props {c : Char} (h : isPyDigit c = true) :
    c ≠ 'P' ∧ c ≠ 'T' ∧ c ≠ 'H' ∧ c ≠ 'M' ∧ c ≠ '-' ∧ c ≠ '+' ∧ isPySpace c = false := by
  refine ⟨?_, ?_, ?_, ?_, ?_, ?_, ?_⟩
  · rintro rfl; exact absurd h (by decide)
  · rintro rfl; exact absurd h (by decide)
  · rintro rfl; exact absurd h (by decide)
  · rintro rfl; exact absurd h (by decide)
  · rintro rfl; exact absurd h (by decide)
  · rintro rfl; exact absurd h (by decide)
  · by_contra hs
    have hs' : isPySpace c = true := by
      cases hx : isPySpace c
      · exact absurd hx hs
      · rfl
    have hsp := hs'
    simp only [isPySpace, Bool.or_eq_true, decide_eq_true_eq] at hsp
    rcases hsp with ((rfl | rfl) | rfl) | rfl <;> exact absurd h (by decide)

theorem dropWhile_eq_self_of_all {p : Char → Bool} {s : List Char}
    (h : ∀ c ∈ s, p c = false) : s.dropWhile p = s := by
  cases s with
  | nil => rfl
  | cons c rest =>
    have hc := h c (by simp)
    simp [List.dropWhile, hc]

theorem pyStrip_of_all_not_space {s : PyStr} (h : ∀ c ∈ s, isPySpace c = false) :
    pyStrip s = s := by
  unfold pyStrip
  rw [dropWhile_eq_self_of_all h, dropWhile_eq_self_of_all (by intro c hc; exact h c (by simpa using hc)),
    List.reverse_reverse]

theorem signedDigitsVal_of_digits {s : PyStr} (hne : s ≠ []) (h : ∀ c ∈ s, isPyDigit c = true) :
    signedDigitsVal s = some (digitsVal s : Int) := by
  match s, hne with
  | c :: rest, _ =>
    have hc := h c (by simp)
    have h1 : c ≠ '-' := (isPyDigit_props hc).2.2.2.2.1
    have h2 : c ≠ '+' := (isPyDigit_props hc).2.2.2.2.2.1
    unfold signedDigitsVal
    split
    · rename_i heq; exact absurd (List.cons.inj heq).1 h1
    · rename_i heq; exact absurd (List.cons.inj heq).1 h2
    · have hall : (c :: rest).all isPyDigit = true := by
        rw [List.all_eq_true]; exact h
      simp [hall]

theorem pyInt_natStr (n : Nat) : pyInt (natStr n) = some (n : Int) := by
  have hdig := natStr_all_digits n
  have hnospace : ∀ c ∈ natStr n, isPySpace c = false := fun c hc =>
    (isPyDigit_props (hdig c hc)).2.2.2.2.2.2
  rw [pyInt, pyStrip_of_all_not_space hnospace,
    signedDigitsVal_of_digits (natStr_ne_nil n) hdig, digitsVal_natStr]

theorem intStr_natCast (n : Nat) : intStr (n : Int) = natStr n := by
  simp [intStr]

theorem pyReplaceFuel_nil (pat rep : PyStr) (fuel : Nat) :
    pyReplaceFuel pat rep fuel [] = [] := by
  cases fuel <;> rfl

theorem pyReplaceFuel_succ_pos {pat rep : PyStr} {fuel : Nat} {c : Char} {rest : PyStr}
    (hpre : pat.isPrefixOf (c :: rest) = true) :
    pyReplaceFuel pat rep (fuel + 1) (c :: rest)
      = rep ++ pyReplaceFuel pat rep fuel ((c :: rest).drop pat.length) := by
  simp [pyReplaceFuel, hpre]

theorem pyReplaceFuel_succ_neg {pat rep : PyStr} {fuel : Nat} {c : Char} {rest : PyStr}
    (hpre : pat.isPrefixOf (c :: rest) = false) :
    pyReplaceFuel pat rep (fuel + 1) (c :: rest) = c :: pyReplaceFuel pat rep fuel rest := by
  simp [pyReplaceFuel, hpre]

theorem isPrefixOf_cons_of_ne {p c : Char} {pt rest : PyStr} (h : c ≠ p) :
    (p :: pt).isPrefixOf (c :: rest) = false := by
  simp only [List.isPrefixOf]
  have hb : (p == c) = false := by
    cases hx : p == c
    · rfl
    · have hpc : p = c := by simpa using hx
      exact absurd hpc.symm h
  simp [hb]

theorem pyReplaceFuel_no_head {rep : PyStr} {p : Char} {pt : PyStr} :
    ∀ fuel (s : PyStr), (∀ c ∈ s, c ≠ p) → pyReplaceFuel (p :: pt) rep fuel s = s := by
  intro fuel
  induction fuel with
  | zero => intro s _; rfl
  | succ fuel ih =>
    intro s h
    cases s with
    | nil => rfl
    | cons c rest =>
      have hc : c ≠ p := h c (by simp)
      rw [pyReplaceFuel_succ_neg (isPrefixOf_cons_of_ne hc)]
      rw [ih rest (fun c hc => h c (by simp [hc]))]

theorem pyReplace_PT {t : PyStr} (h : ∀ c ∈ t, c ≠ 'P') :
    pyReplace ('P' :: 'T' :: t) (pstr "PT") [] = t := by
  have hpre : (pstr "PT").isPrefixOf ('P' :: 'T' :: t) = true := by
    simp [pstr, List.isPrefixOf]
  show pyReplaceFuel (pstr "PT") [] ('P' :: 'T' :: t).length ('P' :: 'T' :: t) = t
  have hlen : ('P' :: 'T' :: t).length = t.length + 1 + 1 := by simp
  rw [hlen, pyReplaceFuel_succ_pos hpre]
  show pyReplaceFuel (pstr "PT") [] (t.length + 1) t = t
  exact pyReplaceFuel_no_head _ t h

theorem pyReplace_strip_last {a : PyStr} {ch : Char} (h : ∀ c ∈ a, c ≠ ch) :
    pyReplace (a ++ [ch]) [ch] [] = a := by
  have key : ∀ fuel (a : PyStr), a.length ≤ fuel → (∀ c ∈ a, c ≠ ch) →
      pyReplaceFuel [ch] [] (fuel + 1) (a ++ [ch]) = a := by
    intro fuel
    induction fuel with
    | zero =>
      intro a hlen _
      have : a = [] := List.length_eq_zero.mp (Nat.le_zero.mp hlen)
      subst this
      have hpre : ([ch] : PyStr).isPrefixOf [ch] = true := by simp [List.isPrefixOf]
      rw [List.nil_append, pyReplaceFuel_succ_pos hpre]
      rfl
    | succ fuel ih =>
      intro a hlen hall
      cases a with
      | nil =>
        have hpre : ([ch] : PyStr).isPrefixOf [ch] = true := by simp [List.isPrefixOf]
        rw [List.nil_append, pyReplaceFuel_succ_pos hpre]
        simp [pyReplaceFuel_nil]
      | cons c rest =>
        have hc : c ≠ ch := hall c (by simp)
        rw [List.cons_append, pyReplaceFuel_succ_neg (isPrefixOf_cons_of_ne hc)]
        rw [ih rest (by simpa using hlen) (fun c hc => hall c (by simp [hc]))]
  show pyReplaceFuel [ch] [] (a ++ [ch]).length (a ++ [ch]) = a
  have hlen : (a ++ [ch]).length = a.length + 1 := by simp
  rw [hlen]
  exact key a.length a (le_refl _) h

theorem contains_eq_true_of_mem {c : Char} {s : PyStr} (h : c ∈ s) : s.contains c = true := by
  induction s with
  | nil => simp at h
  | cons a rest ih =>
    simp only [List.contains, List.elem]
    cases hb : c == a
    · rcases List.mem_cons.mp h with rfl | h2
      · simp at hb
      · exact ih h2
    · rfl

theorem contains_eq_false_of_not_mem {c : Char} {s : PyStr} (h : c ∉ s) : s.contains c = false := by
  induction s with
  | nil => rfl
  | cons a rest ih =>
    simp only [List.contains, List.elem]
    cases hb : c == a
    · exact ih fun hc => h (by simp [hc])
    · have hca : c = a := by simpa using hb
      exact absurd (by simp [hca] : c ∈ a :: rest) h

theorem pySplit_not_mem {sep : Char} {s : PyStr} (h : ∀ c ∈ s, c ≠ sep) :
    pySplit sep s = [s] := by
  induction s with
  | nil => rfl
  | cons c rest ih =>
    have hc : c ≠ sep := h c (by simp)
    have ihr := ih fun c hc => h c (by simp [hc])
    simp only [pySplit, if_neg hc, ihr]

theorem pySplit_append {sep : Char} {a b : PyStr} (h : ∀ c ∈ a, c ≠ sep) :
    pySplit sep (a ++ sep :: b) = a :: pySplit sep b := by
  induction a with
  | nil => simp [pySplit]
  | cons c a' ih =>
    have hc : c ≠ sep := h c (by simp)
    have ihr := ih fun c hc => h c (by simp [hc])
    simp only [List.cons_append, pySplit, if_neg hc, List.append_eq, ihr]

theorem dictGet_of_forall_ne {d : List (PyStr × PyStr)} {k dflt : PyStr}
    (h : ∀ p ∈ d, p.1 ≠ k) : dictGet d k dflt = dflt := by
  induction d with
  | nil => rfl
  | cons p rest ih =>
    obtain ⟨key, v⟩ := p
    have hk : key ≠ k := h (key, v) (by simp)
    simp only [dictGet, if_neg hk]
    exact ih fun q hq => h q (by simp [hq])

theorem dictGet_mem_or_default (d : List (PyStr × PyStr)) (k dflt : PyStr) :
    dictGet d k dflt = dflt ∨ ∃ p ∈ d, dictGet d k dflt = p.2 := by
  induction d with
  | nil => exact Or.inl rfl
  | cons p rest ih =>
    obtain ⟨key, v⟩ := p
    by_cases hk : key = k
    · exact Or.inr ⟨(key, v), by simp, by simp [dictGet, hk]⟩
    · rcases ih with h | ⟨q, hq, he⟩
      · exact Or.inl (by simp [dictGet, hk, h])
      · exact Or.inr ⟨q, by simp [hq], by simp [dictGet, hk, he]⟩

/-- C8: every carrier code in the static table resolves to its mapped display
name; any other input string is returned unchanged; and the resolver is
idempotent: resolving twice gives the same result as resolving once. -/
theorem get_airline_name_c8 :
    (∀ p ∈ airlines, get_airline_name p.1 = p.2) ∧
    (∀ code : PyStr, (∀ p ∈ airlines, p.1 ≠ code) → get_airline_name code = code) ∧
    (∀ code : PyStr, get_airline_name (get_airline_name code) = get_airline_name code) := by
  refine ⟨by decide, ?_, ?_⟩
  · intro code h
    exact dictGet_of_forall_ne h
  · intro code
    rcases dictGet_mem_or_default airlines code code with h | ⟨p, hp, he⟩
    · have h' : get_airline_name code = code := h
      rw [h']
      exact h'
    · have h' : get_airline_name code = p.2 := he
      rw [h']
      have hv : ∀ p ∈ airlines, ∀ q ∈ airlines, q.1 ≠ p.2 := by decide
      exact dictGet_of_forall_ne (hv p hp)

theorem durationHours_digits_H (h : Nat) (rest : PyStr) (hrest : 'H' ∉ rest) :
    durationHours (natStr h ++ 'H' :: rest) = some ((h : Int), rest) := by
  have hdig := natStr_all_digits h
  have hnoH : ∀ c ∈ natStr h, c ≠ 'H' := fun c hc => (isPyDigit_props (hdig c hc)).2.2.1
  have hmem : 'H' ∈ natStr h ++ 'H' :: rest := by simp
  have hrest' : ∀ c ∈ rest, c ≠ 'H' := fun c hc hceq => hrest (by rw [← hceq]; exact hc)
  rw [durationHours, if_pos (contains_eq_true_of_mem hmem), pySplit_append hnoH,
    pySplit_not_mem hrest']
  show Option.map (fun hh => (hh, rest)) (pyInt (natStr h)) = some ((h : Int), rest)
  rw [pyInt_natStr]
  rfl

theorem durationHours_no_H {s : PyStr} (h : ∀ c ∈ s, c ≠ 'H') :
    durationHours s = some (0, s) := by
  have hne : 'H' ∉ s := fun hm => (h 'H' hm) rfl
  rw [durationHours, contains_eq_false_of_not_mem hne]
  rfl

theorem durationMinutes_digits_M (m : Nat) :
    durationMinutes (natStr m ++ [ 'M' ]) = some (m : Int) := by
  have hdig := natStr_all_digits m
  have hnoM : ∀ c ∈ natStr m, c ≠ 'M' := fun c hc => (isPyDigit_props (hdig c hc)).2.2.2.1
  have hmem : 'M' ∈ natStr m ++ [ 'M' ] := by simp
  have hps : pstr "M" = [ 'M' ] := rfl
  rw [durationMinutes, if_pos (contains_eq_true_of_mem hmem), hps,
    pyReplace_strip_last hnoM, pyInt_natStr]

theorem durationMinutes_no_M {s : PyStr} (h : 'M' ∉ s) :
    durationMinutes s = some 0 := by
  rw [durationMinutes, contains_eq_false_of_not_mem h]
  rfl

theorem parse_duration_eq_of (d : PyStr) (hrs : Int) (s2 : PyStr) (mins : Int)
    (h1 : durationHours (pyReplace d (pstr "PT") []) = some (hrs, s2))
    (h2 : durationMinutes s2 = some mins) :
    parse_duration d = intStr hrs ++ pstr "h " ++ intStr mins ++ pstr "m" := by
  rw [parse_duration, h1]
  show (match durationMinutes s2 with
    | none => pstr "N/A"
    | some minutes => intStr hrs ++ pstr "h " ++ intStr minutes ++ pstr "m") =
    intStr hrs ++ pstr "h " ++ intStr mins ++ pstr "m"
  rw [h2]

/-- C4 (amended): for every valid duration token `PT{h}H{m}M` with decimal
components, either component optional, `parse_duration` returns `"{h}h {m}m"`
with `0` for a missing component; when integer conversion of a component
fails (for example `"PTxHyM"`) it returns `"N/A"`; but the empty string (and
any input without `H`, `M` or a failing conversion) yields `"0h 0m"`, not
`"N/A"`. -/
theorem parse_duration_c4 :
    (∀ h m : Nat, parse_duration (pstr "PT" ++ natStr h ++ pstr "H" ++ natStr m ++ pstr "M")
        = natStr h ++ pstr "h " ++ natStr m ++ pstr "m") ∧
    (∀ h : Nat, parse_duration (pstr "PT" ++ natStr h ++ pstr "H")
        = natStr h ++ pstr "h " ++ pstr "0m") ∧
    (∀ m : Nat, parse_duration (pstr "PT" ++ natStr m ++ pstr "M")
        = pstr "0h " ++ natStr m ++ pstr "m") ∧
    parse_duration (pstr "PT") = pstr "0h 0m" ∧
    parse_duration [] = pstr "0h 0m" ∧
    parse_duration (pstr "PTxHyM") = pstr "N/A" := by
  refine ⟨?_, ?_, ?_, by decide, by decide, by decide⟩
  · intro h m
    have harg : pstr "PT" ++ natStr h ++ pstr "H" ++ natStr m ++ pstr "M"
        = 'P' :: 'T' :: (natStr h ++ 'H' :: (natStr m ++ [ 'M' ])) := by
      simp [pstr, List.append_assoc]
    have hnoP : ∀ c ∈ natStr h ++ 'H' :: (natStr m ++ [ 'M' ]), c ≠ 'P' := by
      intro c hc
      rcases List.mem_append.mp hc with h1 | h2
      · exact (isPyDigit_props (natStr_all_digits h c h1)).1
      · rcases List.mem_cons.mp h2 with rfl | h3
        · decide
        · rcases List.mem_append.mp h3 with h4 | h5
          · exact (isPyDigit_props (natStr_all_digits m c h4)).1
          · simp only [List.mem_singleton] at h5
            subst h5; decide
    have hnoH : 'H' ∉ natStr m ++ [ 'M' ] := by
      intro hc
      rcases List.mem_append.mp hc with h4 | h5
      · exact absurd rfl (isPyDigit_props (natStr_all_digits m 'H' h4)).2.2.1
      · simp at h5
    have h1 : durationHours
        (pyReplace ('P' :: 'T' :: (natStr h ++ 'H' :: (natStr m ++ [ 'M' ]))) (pstr "PT") [])
        = some ((h : Int), natStr m ++ [ 'M' ]) := by
      rw [pyReplace_PT hnoP]
      exact durationHours_digits_H h _ hnoH
    rw [harg, parse_duration_eq_of _ _ _ _ h1 (durationMinutes_digits_M m),
      intStr_natCast, intStr_natCast]
  · intro h
    have harg : pstr "PT" ++ natStr h ++ pstr "H" = 'P' :: 'T' :: (natStr h ++ 'H' :: []) := by
      simp [pstr, List.append_assoc]
    have hnoP : ∀ c ∈ natStr h ++ 'H' :: ([] : PyStr), c ≠ 'P' := by
      intro c hc
      rcases List.mem_append.mp hc with h1 | h2
      · exact (isPyDigit_props (natStr_all_digits h c h1)).1
      · rcases List.mem_cons.mp h2 with rfl | h3
        · decide
        · simp at h3
    have h1 : durationHours
        (pyReplace ('P' :: 'T' :: (natStr h ++ 'H' :: [])) (pstr "PT") [])
        = some ((h : Int), []) := by
      rw [pyReplace_PT hnoP]
      exact durationHours_digits_H h [] (by simp)
    rw [harg, parse_duration_eq_of _ _ _ _ h1 (durationMinutes_no_M (by simp)),
      intStr_natCast]
    have h0 : intStr 0 = [ '0' ] := by decide
    rw [h0]
    simp [pstr, List.append_assoc]
  · intro m
    have harg : pstr "PT" ++ natStr m ++ pstr "M" = 'P' :: 'T' :: (natStr m ++ [ 'M' ]) := by
      simp [pstr, List.append_assoc]
    have hnoP : ∀ c ∈ natStr m ++ [ 'M' ], c ≠ 'P' := by
      intro c hc
      rcases List.mem_append.mp hc with h1 | h2
      · exact (isPyDigit_props (natStr_all_digits m c h1)).1
      · simp only [List.mem_singleton] at h2
        subst h2; decide
    have hnoH : ∀ c ∈ natStr m ++ [ 'M' ], c ≠ 'H' := by
      intro c hc
      rcases List.mem_append.mp hc with h1 | h2
      · exact (isPyDigit_props (natStr_all_digits m c h1)).2.2.1
      · simp only [List.mem_singleton] at h2
        subst h2; decide
    have h1 : durationHours
        (pyReplace ('P' :: 'T' :: (natStr m ++ [ 'M' ])) (pstr "PT") [])
        = some (0, natStr m ++ [ 'M' ]) := by
      rw [pyReplace_PT hnoP]
      exact durationHours_no_H hnoH
    rw [harg, parse_duration_eq_of _ _ _ _ h1 (durationMinutes_digits_M m),
      intStr_natCast]
    have h0 : intStr 0 = [ '0' ] := by decide
    rw [h0]
    simp [pstr, List.append_assoc]

/-- Counterexample for C4 as stated: the empty string is an "empty or
garbage" input, but `parse_duration` returns `"0h 0m"`, not `"N/A"`. -/
theorem parse_duration_c4_counterexample :
    parse_duration [] = pstr "0h 0m" ∧ parse_duration [] ≠ pstr "N/A" := by
  constructor <;> decide

theorem parseLoop_append_error {cfg : Config} {date : PyStr} {bad : RawOffer}
    (hbad : processOffer cfg date bad = .error ()) (post : List RawOffer) :
    ∀ (pre : List RawOffer) (acc : List Deal),
      parseLoop cfg date (pre ++ bad :: post) acc = parseLoop cfg date pre acc := by
  intro pre
  induction pre with
  | nil =>
    intro acc
    simp only [List.nil_append, parseLoop, hbad]
  | cons o pre' ih =>
    intro acc
    simp only [List.cons_append, parseLoop]
    cases hp : processOffer cfg date o with
    | error e => rfl
    | ok v =>
      cases v with
      | none => exact ih acc
      | some d => exact ih (acc ++ [d])

theorem parseLoop_mem {cfg : Config} {date : PyStr} :
    ∀ (data : List RawOffer) (acc : List Deal) (d : Deal), d ∈ parseLoop cfg date data acc →
      d ∈ acc ∨ ∃ o ∈ data, processOffer cfg date o = .ok (some d) := by
  intro data
  induction data with
  | nil => intro acc d hd; exact Or.inl hd
  | cons o rest ih =>
    intro acc d hd
    simp only [parseLoop] at hd
    cases hp : processOffer cfg date o with
    | error e => rw [hp] at hd; exact Or.inl hd
    | ok v =>
      cases v with
      | none =>
        rw [hp] at hd
        rcases ih acc d hd with h | ⟨o', ho', he⟩
        · exact Or.inl h
        · exact Or.inr ⟨o', by simp [ho'], he⟩
      | some d' =>
        rw [hp] at hd
        rcases ih (acc ++ [d']) d hd with h | ⟨o', ho', he⟩
        · rcases List.mem_append.mp h with h1 | h2
          · exact Or.inl h1
          · simp only [List.mem_singleton] at h2
            exact Or.inr ⟨o, by simp, by rw [hp, h2]⟩
        · exact Or.inr ⟨o', by simp [ho'], he⟩

theorem pyTrunc_le_of_le {q : ℚ} {M : Int} (h : q ≤ (M : ℚ)) : pyTrunc q ≤ M := by
  by_cases hq : 0 ≤ q.num
  · have hfl : pyTrunc q = ⌊q⌋ := by
      rw [pyTrunc, Int.tdiv_eq_ediv hq (Int.natCast_nonneg _), Rat.floor_def]
    rw [hfl]
    calc ⌊q⌋ ≤ ⌊(M : ℚ)⌋ := Int.floor_le_floor h
      _ = M := Int.floor_intCast M
  · push_neg at hq
    have hcl : pyTrunc q = ⌈q⌉ := by
      have h1 : q.num.tdiv q.den = -((-q.num).tdiv q.den) := by
        rw [Int.neg_tdiv, neg_neg]
      have h2 : (-q.num).tdiv (q.den : Int) = (-q.num) / (q.den : Int) :=
        Int.tdiv_eq_ediv (by omega) (Int.natCast_nonneg _)
      have h3 : ⌊-q⌋ = (-q.num) / ((q.den : Int)) := by
        rw [Rat.floor_def, Rat.neg_num, Rat.neg_den]
      have h4 : ⌊-q⌋ = -⌈q⌉ := Int.floor_neg
      rw [pyTrunc, h1, h2, ← h3, h4, neg_neg]
    rw [hcl]
    calc ⌈q⌉ ≤ ⌈(M : ℚ)⌉ := Int.ceil_le_ceil h
      _ = M := Int.ceil_intCast M

theorem processOffer_price_le {cfg : Config} {date : PyStr} {o : RawOffer} {d : Deal}
    (h : processOffer cfg date o = .ok (some d)) : d.price ≤ cfg.MAX_PRICE := by
  unfold processOffer at h
  split at h
  · simp at h
  · split at h
    · simp at h
    · split at h
      · rename_i hle
        split at h
        · simp at h
        · split at h
          · simp at h
          · simp only [Except.ok.injEq, Option.some.injEq] at h
            rw [← h]
            exact pyTrunc_le_of_le hle
      · simp at h

/-- C5: under a positive passenger count and non-negative offer totals, every
deal returned by `parse_amadeus_response` respects the per-person budget:
`d.price ≤ cfg.MAX_PRICE`, because the filter is applied to the exact
per-person price before the deal is constructed and truncation toward zero
never increases a value past an integer bound. -/
theorem parse_amadeus_response_c5 (cfg : Config) (date : PyStr) (data : List RawOffer)
    (hp : 1 ≤ cfg.PASSENGERS)
    (hnn : ∀ o ∈ data, ∀ t : Int × Nat,
      pyFloatParse (o.priceTotal.getD (pstr "0")) = some t → 0 ≤ t.1)
    (d : Deal) (hd : d ∈ parse_amadeus_response cfg data date) :
    d.price ≤ cfg.MAX_PRICE := by
  rcases parseLoop_mem data [] d hd with h | ⟨o, ho, he⟩
  · simp at h
  · exact processOffer_price_le he

/-- Witness for C5: the concrete qualifying offer yields a deal of price 100
under budget 1000. -/
theorem parse_amadeus_response_c5_witness :
    (1 ≤ cfgA.PASSENGERS ∧
      dealGood ∈ parse_amadeus_response cfgA [offerGood] (pstr "2026-02-01")) ∧
    dealGood.price ≤ cfgA.MAX_PRICE := by
  refine ⟨⟨by decide, by decide⟩,
    parse_amadeus_response_c5 cfgA (pstr "2026-02-01") [offerGood] (by decide) ?_ dealGood (by decide)⟩
  intro o ho t ht
  simp only [List.mem_singleton] at ho
  subst ho
  have hfp : pyFloatParse (offerGood.priceTotal.getD (pstr "0")) = some (100, 0) := by decide
  rw [hfp] at ht
  cases ht
  decide

/-- C1 (amended): an exception raised while extracting the fields of a single
offer aborts processing of the entire remaining batch: the deals accumulated
before the failing offer are returned, and the offers after it are never
examined.  (The `try` wraps the whole loop, not one iteration.) -/
theorem parse_amadeus_response_c1 (cfg : Config) (date : PyStr) (pre post : List RawOffer)
    (bad : RawOffer) (hbad : processOffer cfg date bad = .error ()) :
    parse_amadeus_response cfg (pre ++ bad :: post) date = parse_amadeus_response cfg pre date :=
  parseLoop_append_error hbad post pre []

/-- Counterexample for C1 as stated: a malformed offer followed by a
qualifying offer produces the empty deal list — the qualifying offer after
the failing position is lost, not preserved. -/
theorem parse_amadeus_response_c1_counterexample :
    processOffer cfgA (pstr "2026-02-01") offerBad = .error () ∧
    processOffer cfgA (pstr "2026-02-01") offerGood = .ok (some dealGood) ∧
    parse_amadeus_response cfgA [offerBad, offerGood] (pstr "2026-02-01") = [] := by
  refine ⟨by decide, by decide, by decide⟩

/-- Witness for C1 (amended) at concrete inputs. -/
theorem parse_amadeus_response_c1_witness :
    processOffer cfgA (pstr "2026-02-01") offerBad = .error () ∧
    parse_amadeus_response cfgA ([offerGood] ++ offerBad :: [offerGood]) (pstr "2026-02-01")
      = parse_amadeus_response cfgA [offerGood] (pstr "2026-02-01") :=
  ⟨by decide, parse_amadeus_response_c1 cfgA (pstr "2026-02-01") [offerGood] [offerGood] offerBad (by decide)⟩

/-- C10: `parse_amadeus_response` is total (it always returns a list: every
exception inside the loop is caught by the batch-level handler), and with a
configured passenger count of 0 and a non-empty batch, the division by zero
on the first offer (or the `float` failure before it) aborts the batch and
the function returns the empty list. -/
theorem parse_amadeus_response_c10 (cfg : Config) (date : PyStr) (data : List RawOffer)
    (h0 : cfg.PASSENGERS = 0) (hne : data ≠ []) :
    parse_amadeus_response cfg data date = [] := by
  cases data with
  | nil => exact absurd rfl hne
  | cons o rest =>
    have herr : processOffer cfg date o = .error () := by
      unfold processOffer
      split
      · rfl
      · rw [if_pos h0]
    rw [parse_amadeus_response]
    simp only [parseLoop, herr]

/-- Witness for C10: a non-empty batch under a zero passenger count yields
the empty list. -/
theorem parse_amadeus_response_c10_witness :
    ({ cfgA with PASSENGERS := 0 } : Config).PASSENGERS = 0 ∧
    ([offerGood] : List RawOffer) ≠ [] ∧
    parse_amadeus_response { cfgA with PASSENGERS := 0 } [offerGood] (pstr "2026-02-01") = [] :=
  ⟨rfl, by simp,
    parse_amadeus_response_c10 { cfgA with PASSENGERS := 0 } (pstr "2026-02-01") [offerGood] rfl (by simp)⟩

theorem renderGroup_append_one (g : List PyStr) (l : PyStr) :
    renderGroup (g ++ [l]) = renderGroup g ++ l ++ [ '\n' ] := by
  simp [renderGroup]

theorem renderGroup_singleton (l : PyStr) : renderGroup [l] = l ++ [ '\n' ] := by
  simp [renderGroup]

theorem renderGroup_isEmpty (g : List PyStr) : (renderGroup g).isEmpty = g.isEmpty := by
  cases g with
  | nil => rfl
  | cons l ls => simp [renderGroup]

theorem chunkLoop_eq_groups :
    ∀ (lines : List PyStr) (gs : List (List PyStr)) (g : List PyStr),
      chunkLoop lines (gs.map renderGroup) (renderGroup g)
        = (chunkGroups lines gs g).map renderGroup := by
  intro lines
  induction lines with
  | nil =>
    intro gs g
    simp only [chunkLoop, chunkGroups, renderGroup_isEmpty]
    cases hg : g.isEmpty
    · simp
    · simp
  | cons line rest ih =>
    intro gs g
    simp only [chunkLoop, chunkGroups]
    split
    · have h1 : gs.map renderGroup ++ [renderGroup g] = (gs ++ [g]).map renderGroup := by
        simp
      have h2 : line ++ [ '\n' ] = renderGroup [line] := (renderGroup_singleton line).symm
      rw [h1, h2, ih]
    · have h2 : renderGroup g ++ line ++ [ '\n' ] = renderGroup (g ++ [line]) := by
        rw [renderGroup_append_one]
      rw [h2, ih]

theorem chunkGroups_join :
    ∀ (lines : List PyStr) (gs : List (List PyStr)) (g : List PyStr),
      (chunkGroups lines gs g).flatten = gs.flatten ++ g ++ lines := by
  intro lines
  induction lines with
  | nil =>
    intro gs g
    simp only [chunkGroups]
    cases hg : g.isEmpty
    · simp
    · have : g = [] := by simpa using hg
      simp [this]
  | cons line rest ih =>
    intro gs g
    simp only [chunkGroups]
    split
    · rw [ih]
      simp
    · rw [ih]
      simp

theorem splitChunks_groups (msg : PyStr) :
    splitChunks msg = (chunkGroups (pySplit '\n' msg) [] []).map renderGroup ∧
    (chunkGroups (pySplit '\n' msg) [] []).flatten = pySplit '\n' msg := by
  constructor
  · have h := chunkLoop_eq_groups (pySplit '\n' msg) [] []
    simpa [splitChunks, renderGroup] using h
  · simpa using chunkGroups_join (pySplit '\n' msg) [] []

theorem pySplit_ne_nil (sep : Char) (s : PyStr) : pySplit sep s ≠ [] := by
  cases s with
  | nil => simp [pySplit]
  | cons c rest =>
    simp only [pySplit]
    split
    · simp
    · split <;> simp

theorem join_map_newline_pySplit (sep : Char) :
    ∀ s : PyStr, ((pySplit sep s).map (fun l => l ++ [sep])).flatten = s ++ [sep] := by
  intro s
  induction s with
  | nil => rfl
  | cons c rest ih =>
    by_cases hc : c = sep
    · subst hc
      have hps : pySplit c (c :: rest) = [] :: pySplit c rest := by
        simp [pySplit]
      rw [hps, List.map_cons, List.flatten_cons, ih]
      simp
    · cases hsp : pySplit sep rest with
      | nil => exact absurd hsp (pySplit_ne_nil sep rest)
      | cons l ls =>
        have hps : pySplit sep (c :: rest) = (c :: l) :: ls := by
          simp only [pySplit, if_neg hc, hsp]
        rw [hsp] at ih
        rw [hps]
        simp only [List.map_cons, List.flatten_cons, List.cons_append, List.append_assoc] at ih ⊢
        rw [ih]

theorem join_map_renderGroup (gs : List (List PyStr)) :
    (gs.map renderGroup).flatten = renderGroup gs.flatten := by
  induction gs with
  | nil => rfl
  | cons g rest ih => simp [renderGroup, ih]

theorem splitChunks_join (msg : PyStr) : (splitChunks msg).flatten = msg ++ [ '\n' ] := by
  obtain ⟨h1, h2⟩ := splitChunks_groups msg
  rw [h1, join_map_renderGroup, h2]
  exact join_map_newline_pySplit '\n' msg

theorem chunkLoop_length_le :
    ∀ (lines : List PyStr) (parts : List PyStr) (current : PyStr),
      (∀ p ∈ parts, p.length ≤ 4000) → current.length ≤ 4000 →
      (∀ l ∈ lines, l.length ≤ 3999) →
      ∀ p ∈ chunkLoop lines parts current, p.length ≤ 4000 := by
  intro lines
  induction lines with
  | nil =>
    intro parts current hparts hcur _ p hp
    simp only [chunkLoop] at hp
    split at hp
    · exact hparts p hp
    · rcases List.mem_append.mp hp with h | h
      · exact hparts p h
      · simp only [List.mem_singleton] at h
        subst h; exact hcur
  | cons line rest ih =>
    intro parts current hparts hcur hlines p hp
    have hline : line.length ≤ 3999 := hlines line (by simp)
    simp only [chunkLoop] at hp
    split at hp
    · refine ih _ _ ?_ ?_ (fun l hl => hlines l (by simp [hl])) p hp
      · intro q hq
        rcases List.mem_append.mp hq with h | h
        · exact hparts q h
        · simp only [List.mem_singleton] at h
          subst h; exact hcur
      · simp only [List.length_append, List.length_cons, List.length_nil]
        omega
    · rename_i hcond
      refine ih _ _ hparts ?_ (fun l hl => hlines l (by simp [hl])) p hp
      simp only [List.length_append, List.length_cons, List.length_nil]
      simp only [not_lt] at hcond
      omega

theorem chunkLoop_ne_nil :
    ∀ (lines : List PyStr), lines ≠ [] → ∀ (parts : List PyStr) (current : PyStr),
      chunkLoop lines parts current ≠ [] := by
  intro lines
  induction lines with
  | nil => intro h; exact absurd rfl h
  | cons line rest ih =>
    intro _ parts current
    by_cases hr : rest = []
    · subst hr
      simp only [chunkLoop]
      split
      · simp [chunkLoop]
      · simp [chunkLoop]
    · simp only [chunkLoop]
      split
      · exact ih hr _ _
      · exact ih hr _ _

/-- C3 (amended): for a long message whose individual lines all fit in 3999
characters, every chunk is at most 4000 characters; the chunks are exactly
the renderings of consecutive groups of the message lines (so splitting only
happens at line boundaries); and concatenating all chunks reproduces the
original text with one extra trailing newline appended by the chunker.  A
single line longer than 3999 characters breaks the 4000 bound (see the
counterexample). -/
theorem send_long_message_c3 (msg : PyStr) (hlong : 4000 < msg.length)
    (hlines : ∀ l ∈ pySplit '\n' msg, l.length ≤ 3999) :
    (∀ p ∈ splitChunks msg, p.length ≤ 4000) ∧
    (splitChunks msg).flatten = msg ++ [ '\n' ] ∧
    ∃ gs : List (List PyStr), gs.flatten = pySplit '\n' msg ∧
      splitChunks msg = gs.map renderGroup := by
  refine ⟨?_, splitChunks_join msg, ?_⟩
  · intro p hp
    exact chunkLoop_length_le (pySplit '\n' msg) [] [] (by simp) (by simp) hlines p hp
  · obtain ⟨h1, h2⟩ := splitChunks_groups msg
    exact ⟨chunkGroups (pySplit '\n' msg) [] [], h2, h1⟩

theorem msgOneLongLine_length : msgOneLongLine.length = 4001 := by
  rw [msgOneLongLine, List.length_replicate]

theorem splitChunks_msgOneLongLine :
    splitChunks msgOneLongLine = [[], msgOneLongLine ++ [ '\n' ]] := by
  have hnn : ∀ c ∈ msgOneLongLine, c ≠ '\n' := by
    intro c hc
    have hca := List.eq_of_mem_replicate hc
    subst hca; decide
  rw [splitChunks, pySplit_not_mem hnn]
  have hlen : 4000 < ([] : PyStr).length + msgOneLongLine.length + 1 := by
    rw [msgOneLongLine_length]; omega
  simp only [chunkLoop, if_pos hlen]
  have hne : (msgOneLongLine ++ [ '\n' ]).isEmpty = false := by
    simp
  simp [hne]

/-- Counterexample for C3 as stated: for the 4001-character single-line
message, the chunker emits an empty chunk followed by a chunk of 4002
characters (so not every chunk is ≤ 4000), and the concatenation of the
chunks is the original text plus a trailing newline, not the original text
itself. -/
theorem send_long_message_c3_counterexample :
    4000 < msgOneLongLine.length ∧
    splitChunks msgOneLongLine = [[], msgOneLongLine ++ [ '\n' ]] ∧
    4000 < (msgOneLongLine ++ [ '\n' ]).length ∧
    (splitChunks msgOneLongLine).flatten ≠ msgOneLongLine := by
  refine ⟨by rw [msgOneLongLine_length]; omega, splitChunks_msgOneLongLine,
    by rw [List.length_append, msgOneLongLine_length]; omega, ?_⟩
  rw [splitChunks_msgOneLongLine]
  intro h
  have hlen := congrArg List.length h
  rw [List.flatten_cons, List.flatten_cons, List.flatten_nil, List.nil_append, List.append_nil,
    List.length_append, msgOneLongLine_length] at hlen
  simp [msgOneLongLine_length] at hlen

theorem length_join_replicate (k : Nat) (s : PyStr) :
    ((List.replicate k s).flatten).length = k * s.length := by
  induction k with
  | zero => simp
  | succ k ih =>
    simp only [List.replicate_succ, List.flatten_cons, List.length_append, ih, Nat.succ_mul]
    omega

theorem pySplit_join_replicate_abn :
    ∀ k, pySplit '\n' ((List.replicate k (pstr "ab\n")).flatten)
      = List.replicate k (pstr "ab") ++ [[]] := by
  intro k
  induction k with
  | zero => rfl
  | succ k ih =>
    have hsplit : (List.replicate (k + 1) (pstr "ab\n")).flatten
        = pstr "ab" ++ '\n' :: (List.replicate k (pstr "ab\n")).flatten := by
      simp only [List.replicate_succ, List.flatten_cons]
      rfl
    rw [hsplit, pySplit_append (by decide), ih]
    simp [List.replicate_succ]

/-- Witness for C3 (amended) at a concrete long message with short lines. -/
theorem send_long_message_c3_witness :
    (4000 < msgManyLines.length ∧ ∀ l ∈ pySplit '\n' msgManyLines, l.length ≤ 3999) ∧
    ((∀ p ∈ splitChunks msgManyLines, p.length ≤ 4000) ∧
      (splitChunks msgManyLines).flatten = msgManyLines ++ [ '\n' ] ∧
      ∃ gs : List (List PyStr), gs.flatten = pySplit '\n' msgManyLines ∧
        splitChunks msgManyLines = gs.map renderGroup) := by
  have h1 : 4000 < msgManyLines.length := by
    rw [msgManyLines, length_join_replicate]
    norm_num [pstr]
  have h2 : ∀ l ∈ pySplit '\n' msgManyLines, l.length ≤ 3999 := by
    rw [msgManyLines, pySplit_join_replicate_abn]
    intro l hl
    rcases List.mem_append.mp hl with h | h
    · have := List.eq_of_mem_replicate h
      subst this; decide
    · simp only [List.mem_singleton] at h
      subst h; decide
  exact ⟨⟨h1, h2⟩, send_long_message_c3 msgManyLines h1 h2⟩

/-- C2 (amended): for a message within the 4000-character budget,
`send_long_message` returns the transport result of the single delivery call
unchanged; for a longer message it sends every chunk but discards the
per-chunk results and reports `True` unconditionally, regardless of
transport failures. -/
theorem send_long_message_c2 (send : PyStr → Bool) (message : PyStr) :
    (message.length ≤ 4000 → send_long_message send message = send message) ∧
    (4000 < message.length → send_long_message send message = true) := by
  constructor
  · intro h
    rw [send_long_message, if_pos h]
  · intro h
    rw [send_long_message, if_neg (by omega)]

/-- Counterexample for C2 as stated: with a transport that rejects every
call, a long message still reports overall success, even though the
delivery of each of its chunks (here the 4002-character chunk) returned
failure. -/
theorem send_long_message_c2_counterexample :
    send_long_message (fun _ => false) msgOneLongLine = true ∧
    splitChunks msgOneLongLine = [[], msgOneLongLine ++ [ '\n' ]] ∧
    (fun _ : PyStr => false) (msgOneLongLine ++ [ '\n' ]) = false := by
  refine ⟨?_, splitChunks_msgOneLongLine, rfl⟩
  rw [send_long_message, if_neg (by rw [msgOneLongLine_length]; omega)]

/-- Witness for C2 (amended): a short message returns the transport result
(here failure); a long one returns `True` despite universal transport
failure. -/
theorem send_long_message_c2_witness :
    ((pstr "hi").length ≤ 4000 ∧ send_long_message (fun _ => false) (pstr "hi") = false) ∧
    (4000 < msgOneLongLine.length ∧ send_long_message (fun _ => false) msgOneLongLine = true) := by
  refine ⟨⟨by decide, ?_⟩, ⟨by rw [msgOneLongLine_length]; omega, ?_⟩⟩
  · exact (send_long_message_c2 (fun _ => false) (pstr "hi")).1 (by decide)
  · exact (send_long_message_c2 (fun _ => false) msgOneLongLine).2
      (by rw [msgOneLongLine_length]; omega)

theorem sortByPrice_sorted (deals : List Deal) : List.Sorted dealLE (sortByPrice deals) :=
  List.sorted_insertionSort dealLE deals

theorem sortByPrice_perm (deals : List Deal) : (sortByPrice deals).Perm deals :=
  List.perm_insertionSort dealLE deals

theorem filter_orderedInsert_eq {c : Int} {a : Deal} (ha : a.price = c) (s : List Deal) :
    (List.orderedInsert dealLE a s).filter (fun d => d.price == c)
      = a :: s.filter (fun d => d.price == c) := by
  induction s with
  | nil => simp [List.orderedInsert, ha]
  | cons b t ih =>
    by_cases hab : dealLE a b
    · rw [List.orderedInsert_of_le dealLE t hab]
      simp [List.filter_cons, ha]
    · have hb : (b.price == c) = false := by
        have hlt : b.price < a.price := by
          simp only [dealLE, not_le] at hab
          exact hab
        have : b.price ≠ c := by omega
        simpa using this
      simp only [List.orderedInsert, if_neg hab, List.filter_cons, hb, Bool.false_eq_true,
        if_false, ih]

theorem filter_orderedInsert_ne {c : Int} {a : Deal} (ha : a.price ≠ c) (s : List Deal) :
    (List.orderedInsert dealLE a s).filter (fun d => d.price == c)
      = s.filter (fun d => d.price == c) := by
  have ha' : (a.price == c) = false := by simpa using ha
  induction s with
  | nil => simp [List.orderedInsert, ha']
  | cons b t ih =>
    by_cases hab : dealLE a b
    · rw [List.orderedInsert_of_le dealLE t hab]
      simp [List.filter_cons, ha']
    · simp only [List.orderedInsert, if_neg hab, List.filter_cons, ih]

theorem sortByPrice_stable (deals : List Deal) (c : Int) :
    (sortByPrice deals).filter (fun d => d.price == c)
      = deals.filter (fun d => d.price == c) := by
  induction deals with
  | nil => rfl
  | cons a t ih =>
    show (List.orderedInsert dealLE a (sortByPrice t)).filter (fun d => d.price == c)
      = (a :: t).filter (fun d => d.price == c)
    by_cases ha : a.price = c
    · rw [filter_orderedInsert_eq ha, ih]
      simp [List.filter_cons, ha]
    · rw [filter_orderedInsert_ne ha, ih]
      have ha' : (a.price == c) = false := by simpa using ha
      simp [List.filter_cons, ha']

/-- C9: rendering a non-empty deal collection mutates the caller's list: its
post-state is the stable ascending-by-price permutation of the input — the
ordering changes to sorted order while the multiset of deals is unchanged. -/
theorem format_results_message_c9 (deals : List Deal) (hne : deals ≠ []) :
    format_results_message_post deals = sortByPrice deals ∧
    List.Sorted dealLE (format_results_message_post deals) ∧
    (format_results_message_post deals).Perm deals := by
  cases deals with
  | nil => exact absurd rfl hne
  | cons d rest =>
    exact ⟨rfl, sortByPrice_sorted _, sortByPrice_perm _⟩

/-- Witness for C9: a concrete out-of-order pair is actually reordered. -/
theorem format_results_message_c9_witness :
    ([dealGood, dealCheap] : List Deal) ≠ [] ∧
    (format_results_message_post [dealGood, dealCheap] = sortByPrice [dealGood, dealCheap] ∧
      List.Sorted dealLE (format_results_message_post [dealGood, dealCheap]) ∧
      (format_results_message_post [dealGood, dealCheap]).Perm [dealGood, dealCheap]) ∧
    format_results_message_post [dealGood, dealCheap] = [dealCheap, dealGood] := by
  refine ⟨by simp, format_results_message_c9 _ (by simp), by decide⟩

theorem isPrefixOf_append_self : ∀ (p t : PyStr), p.isPrefixOf (p ++ t) = true := by
  intro p
  induction p with
  | nil => intro t; cases t <;> simp [List.isPrefixOf]
  | cons c r ih =>
    intro t
    simp only [List.cons_append, List.isPrefixOf, ih, Bool.and_true]
    simp

theorem subStr_here (t b : PyStr) : subStr t (t ++ b) = true := by
  cases t with
  | nil => cases b <;> simp [subStr]
  | cons c r =>
    show ((c :: r).isPrefixOf ((c :: r) ++ b) || subStr (c :: r) (r ++ b)) = true
    rw [isPrefixOf_append_self]
    rfl

theorem subStr_append (a t b : PyStr) : subStr t (a ++ (t ++ b)) = true := by
  induction a with
  | nil => simpa using subStr_here t b
  | cons x a' ih =>
    show (t.isPrefixOf (x :: (a' ++ (t ++ b))) || subStr t (a' ++ (t ++ b))) = true
    rw [ih]
    simp

theorem subStr_append_of_eq (a t b : PyStr) {s : PyStr} (hs : s = a ++ (t ++ b)) :
    subStr t s = true := by
  rw [hs]
  exact subStr_append a t b

theorem format_results_message_eq {cfg : Config} {now : PyStr} {deals : List Deal} {msg : PyStr}
    (hne : deals ≠ []) (hmsg : format_results_message cfg now deals = some msg) :
    ∃ best srest top,
      sortByPrice deals = best :: srest ∧
      renderTop cfg 1 ((sortByPrice deals).take 15) = some top ∧
      msg = dealsHeader cfg (sortByPrice deals).length ++ top
        ++ moreNote (sortByPrice deals).length ++ statsBlock now (sortByPrice deals) best := by
  cases deals with
  | nil => exact absurd rfl hne
  | cons d rest =>
    rw [format_results_message] at hmsg
    split at hmsg
    · rename_i best srest top heq1 heq2
      simp only [Option.some.injEq] at hmsg
      exact ⟨best, srest, top, heq1, heq2, hmsg.symm⟩
    · simp at hmsg

theorem foldl_maxBy_spec :
    ∀ (rest : List (PyStr × Nat)) (x : PyStr × Nat),
      (rest.foldl (fun best y => if best.2 < y.2 then y else best) x) ∈ x :: rest ∧
      ∀ p ∈ x :: rest, p.2 ≤ (rest.foldl (fun best y => if best.2 < y.2 then y else best) x).2 := by
  intro rest
  induction rest with
  | nil => intro x; exact ⟨by simp, by simp⟩
  | cons y rest' ih =>
    intro x
    simp only [List.foldl_cons]
    obtain ⟨hmem, hmax⟩ := ih (if x.2 < y.2 then y else x)
    constructor
    · rcases List.mem_cons.mp hmem with h | h
      · rw [h]
        by_cases hxy : x.2 < y.2
        · rw [if_pos hxy]
          exact List.mem_cons_of_mem _ (List.mem_cons_self _ _)
        · rw [if_neg hxy]
          exact List.mem_cons_self _ _
      · exact List.mem_cons_of_mem _ (List.mem_cons_of_mem _ h)
    · intro p hp
      rcases List.mem_cons.mp hp with rfl | hp2
      · have hx : p.2 ≤ (if p.2 < y.2 then y else p).2 := by
          by_cases hxy : p.2 < y.2
          · rw [if_pos hxy]; omega
          · rw [if_neg hxy]
        exact le_trans hx (hmax _ (List.mem_cons_self _ _))
      · rcases List.mem_cons.mp hp2 with rfl | hp3
        · have hy : p.2 ≤ (if x.2 < p.2 then p else x).2 := by
            by_cases hxy : x.2 < p.2
            · rw [if_pos hxy]
            · rw [if_neg hxy]; omega
          exact le_trans hy (hmax _ (List.mem_cons_self _ _))
        · exact hmax p (List.mem_cons_of_mem _ hp3)

theorem maxBySnd_spec (l : List (PyStr × Nat)) (b : PyStr × Nat) (h : maxBySnd l = some b) :
    b ∈ l ∧ ∀ p ∈ l, p.2 ≤ b.2 := by
  cases l with
  | nil => exact absurd h (by simp [maxBySnd])
  | cons x rest =>
    simp only [maxBySnd, Option.some.injEq] at h
    obtain ⟨hmem, hmax⟩ := foldl_maxBy_spec rest x
    rw [h] at hmem hmax
    exact ⟨hmem, hmax⟩

/-- C6: for every non-empty deal collection that renders successfully, the
pipeline stable-sorts ascending by price (a sorted permutation in which the
deals of each price keep their original relative order), the highlighted
entries are the renderings of exactly the first `min 15 n` deals of the
sorted list and appear verbatim in the message, and when more than 15 deals
exist the message states how many more are available. -/
theorem format_results_message_c6 (cfg : Config) (now : PyStr) (deals : List Deal) (msg : PyStr)
    (hne : deals ≠ []) (hmsg : format_results_message cfg now deals = some msg) :
    List.Sorted dealLE (sortByPrice deals) ∧
    (sortByPrice deals).Perm deals ∧
    (∀ c : Int, (sortByPrice deals).filter (fun d => d.price == c)
        = deals.filter (fun d => d.price == c)) ∧
    ((sortByPrice deals).take 15).length = min 15 deals.length ∧
    (∀ top, renderTop cfg 1 ((sortByPrice deals).take 15) = some top → subStr top msg = true) ∧
    (15 < deals.length →
      subStr (pstr "...and " ++ natStr (deals.length - 15) ++ pstr " more deals available!")
        msg = true) := by
  obtain ⟨best, srest, top, hsort, htop, hmsgEq⟩ := format_results_message_eq hne hmsg
  have hlen : (sortByPrice deals).length = deals.length := (sortByPrice_perm deals).length_eq
  refine ⟨sortByPrice_sorted deals, sortByPrice_perm deals, sortByPrice_stable deals, ?_, ?_, ?_⟩
  · rw [List.length_take, hlen]
  · intro top' htop'
    have : top' = top := by
      rw [htop] at htop'
      exact (Option.some.injEq _ _).mp htop'.symm
    subst this
    exact subStr_append_of_eq (dealsHeader cfg (sortByPrice deals).length) top'
      (moreNote (sortByPrice deals).length ++ statsBlock now (sortByPrice deals) best)
      (by rw [hmsgEq]; simp [List.append_assoc])
  · intro h15
    have hmore : moreNote (sortByPrice deals).length
        = pstr "\n_...and " ++ natStr (deals.length - 15) ++ pstr " more deals available!_\n" := by
      rw [moreNote, hlen, if_pos h15]
    have hsplitA : pstr "\n_...and " = pstr "\n_" ++ pstr "...and " := by decide
    have hsplitB : pstr " more deals available!_\n"
        = pstr " more deals available!" ++ pstr "_\n" := by decide
    exact subStr_append_of_eq
      (dealsHeader cfg (sortByPrice deals).length ++ top ++ pstr "\n_")
      (pstr "...and " ++ natStr (deals.length - 15) ++ pstr " more deals available!")
      (pstr "_\n" ++ statsBlock now (sortByPrice deals) best)
      (by rw [hmsgEq, hmore, hsplitA, hsplitB]; simp [List.append_assoc])

/-- Witness for C6: with 20 deals the highlighted list has exactly 15
entries and the report says "5 more deals available". -/
theorem format_results_message_c6_witness :
    (dealsTwenty ≠ [] ∧ format_results_message cfgA [] dealsTwenty = some msgTwenty) ∧
    ((sortByPrice dealsTwenty).take 15).length = min 15 dealsTwenty.length ∧
    subStr (pstr "...and " ++ natStr (dealsTwenty.length - 15) ++ pstr " more deals available!")
      msgTwenty = true ∧
    subStr (pstr "5 more deals available") msgTwenty = true := by
  have h1 : dealsTwenty ≠ [] := by
    have : dealsTwenty.length = 20 := by rw [dealsTwenty, List.length_replicate]
    intro h
    rw [h] at this
    simp at this
  have h2 : format_results_message cfgA [] dealsTwenty = some msgTwenty := by rfl
  have h15 : 15 < dealsTwenty.length := by
    rw [dealsTwenty, List.length_replicate]; omega
  obtain ⟨_, _, _, h4, _, h6⟩ := format_results_message_c6 cfgA [] dealsTwenty msgTwenty h1 h2
  refine ⟨⟨h1, h2⟩, h4, h6 h15, by decide⟩

/-- C7 (amended): for every non-empty collection that renders, the statistics
block reports the airline with the highest occurrence count — the one the
single left-to-right scan of the counts selects, a maximum of all counts, its
count included — and it reports the zero-stop count only when that count is
positive; when no deal has zero stops the non-stop line is omitted entirely
(see the counterexample). -/
theorem format_results_message_c7 (cfg : Config) (now : PyStr) (deals : List Deal) (msg : PyStr)
    (hne : deals ≠ []) (hmsg : format_results_message cfg now deals = some msg) :
    (∀ b : PyStr × Nat, maxBySnd (airlineCounts (sortByPrice deals)) = some b →
      b ∈ airlineCounts (sortByPrice deals) ∧
      (∀ p ∈ airlineCounts (sortByPrice deals), p.2 ≤ b.2) ∧
      subStr (pstr "Most deals: " ++ b.1 ++ pstr " (" ++ natStr b.2 ++ pstr " flights)")
        msg = true) ∧
    (0 < (sortByPrice deals).countP (fun d => d.stops == 0) →
      subStr (pstr "Non-stop flights: "
          ++ natStr ((sortByPrice deals).countP (fun d => d.stops == 0))) msg = true) := by
  obtain ⟨best, srest, top, hsort, htop, hmsgEq⟩ := format_results_message_eq hne hmsg
  constructor
  · intro b hb
    obtain ⟨hmem, hmax⟩ := maxBySnd_spec _ b hb
    refine ⟨hmem, hmax, ?_⟩
    have hsplit1 : pstr "✈️ Most deals: " = pstr "✈️ " ++ pstr "Most deals: " := by decide
    have hsplit2 : pstr " flights)\n" = pstr " flights)" ++ pstr "\n" := by decide
    exact subStr_append_of_eq
      (dealsHeader cfg (sortByPrice deals).length ++ top ++ moreNote (sortByPrice deals).length
        ++ pstr "\n━━━━━━━━━━━━━━━━━━━━\n" ++ pstr "*📊 STATISTICS:*\n\n"
        ++ pstr "🏆 Cheapest: ₹" ++ intStr best.price ++ pstr " (" ++ best.airline ++ pstr ")\n"
        ++ pstr "📊 Average: ₹"
        ++ intStr (Int.tdiv (((sortByPrice deals).map fun d => d.price).sum)
            ((sortByPrice deals).length : Int)) ++ pstr "\n"
        ++ pstr "✈️ ")
      (pstr "Most deals: " ++ b.1 ++ pstr " (" ++ natStr b.2 ++ pstr " flights)")
      (pstr "\n"
        ++ (if 0 < (sortByPrice deals).countP (fun d => d.stops == 0) then
              pstr "🚀 Non-stop flights: "
                ++ natStr ((sortByPrice deals).countP (fun d => d.stops == 0)) ++ pstr "\n"
            else [])
        ++ (pstr "\n🕐 Checked: " ++ now ++ pstr "\n"
            ++ pstr "🌐 Source: Amadeus (400+ airlines)\n"
            ++ pstr "💡 Run again anytime to refresh prices"))
      (by rw [hmsgEq]
          simp only [statsBlock]
          rw [hb, hsplit1, hsplit2]
          simp [List.append_assoc])
  · intro hns
    have hsplit3 : pstr "🚀 Non-stop flights: " = pstr "🚀 " ++ pstr "Non-stop flights: " := by
      decide
    exact subStr_append_of_eq
      (dealsHeader cfg (sortByPrice deals).length ++ top ++ moreNote (sortByPrice deals).length
        ++ pstr "\n━━━━━━━━━━━━━━━━━━━━\n" ++ pstr "*📊 STATISTICS:*\n\n"
        ++ pstr "🏆 Cheapest: ₹" ++ intStr best.price ++ pstr " (" ++ best.airline ++ pstr ")\n"
        ++ pstr "📊 Average: ₹"
        ++ intStr (Int.tdiv (((sortByPrice deals).map fun d => d.price).sum)
            ((sortByPrice deals).length : Int)) ++ pstr "\n"
        ++ (match maxBySnd (airlineCounts (sortByPrice deals)) with
            | some bb => pstr "✈️ Most deals: " ++ bb.1 ++ pstr " (" ++ natStr bb.2
                ++ pstr " flights)\n"
            | none => [])
        ++ pstr "🚀 ")
      (pstr "Non-stop flights: " ++ natStr ((sortByPrice deals).countP (fun d => d.stops == 0)))
      (pstr "\n"
        ++ (pstr "\n🕐 Checked: " ++ now ++ pstr "\n"
            ++ pstr "🌐 Source: Amadeus (400+ airlines)\n"
            ++ pstr "💡 Run again anytime to refresh prices"))
      (by rw [hmsgEq]
          simp only [statsBlock]
          rw [if_pos hns, hsplit3]
          simp [List.append_assoc])

/-- Counterexample for C7 as stated: when the zero-stop count is 0, the
statistics block does not contain the count — the non-stop line is absent
from the message altogether. -/
theorem format_results_message_c7_counterexample :
    format_results_message cfgA [] [dealOneStop] = some msgOneStop ∧
    (sortByPrice [dealOneStop]).countP (fun d => d.stops == 0) = 0 ∧
    subStr (pstr "Non-stop flights:") msgOneStop = false := by
  refine ⟨by rfl, by decide, by decide⟩

/-- Witness for C7 (amended): Air India has the maximal count 2 and the
message reports it; the zero-stop count 2 is positive and reported. -/
theorem format_results_message_c7_witness :
    (dealsThree ≠ [] ∧ format_results_message cfgA [] dealsThree = some msgThree) ∧
    maxBySnd (airlineCounts (sortByPrice dealsThree)) = some (pstr "Air India", 2) ∧
    ((pstr "Air India", 2) ∈ airlineCounts (sortByPrice dealsThree) ∧
      (∀ p ∈ airlineCounts (sortByPrice dealsThree), p.2 ≤ 2) ∧
      subStr (pstr "Most deals: " ++ pstr "Air India" ++ pstr " (" ++ natStr 2 ++ pstr " flights)")
        msgThree = true) ∧
    (0 < (sortByPrice dealsThree).countP (fun d => d.stops == 0) ∧
      subStr (pstr "Non-stop flights: "
          ++ natStr ((sortByPrice dealsThree).countP (fun d => d.stops == 0))) msgThree = true) := by
  have h1 : dealsThree ≠ [] := by simp [dealsThree]
  have h2 : format_results_message cfgA [] dealsThree = some msgThree := by rfl
  have hb : maxBySnd (airlineCounts (sortByPrice dealsThree)) = some (pstr "Air India", 2) := by
    decide
  obtain ⟨ha, hnspart⟩ := format_results_message_c7 cfgA [] dealsThree msgThree h1 h2
  obtain ⟨hmem, hmax, hsub⟩ := ha (pstr "Air India", 2) hb
  exact ⟨⟨h1, h2⟩, hb, ⟨hmem, hmax, hsub⟩, ⟨by decide, hnspart (by decide)⟩⟩

/-- Witness for C8 at concrete inputs: a mapped code, an unmapped code, and
idempotence at a mapped code. -/
theorem get_airline_name_c8_witness :
    ((pstr "6E", pstr "IndiGo") ∈ airlines ∧ get_airline_name (pstr "6E") = pstr "IndiGo") ∧
    ((∀ p ∈ airlines, p.1 ≠ pstr "ZZ") ∧ get_airline_name (pstr "ZZ") = pstr "ZZ") ∧
    get_airline_name (get_airline_name (pstr "6E")) = get_airline_name (pstr "6E") :=
  ⟨⟨by decide, get_airline_name_c8.1 (pstr "6E", pstr "IndiGo") (by decide)⟩,
   ⟨by decide, get_airline_name_c8.2.1 _ (by decide)⟩,
   get_airline_name_c8.2.2 (pstr "6E")⟩
